import Mathlib

/-!
Verification of the tool-call confirmation and resolution pipeline of a chat
agent.  The conversation transformer walks an ordered conversation, finds
tool invocations that await a human decision, executes approved ones,
rejects denied ones, and streams update events to an output channel.  The
implementation module itself is absent from the sources at hand (only its
test suite is present), so the transformer, the sentinel values and the tool
definitions below are modelled from the specification, pinned to the
concrete values the test suite observes.
-/

namespace ChatAgent

/-- Modelled from the spec: the `YES` sentinel of the `APPROVAL` enumeration
from the missing module `src/shared.ts`.  The spec pins the example literal
value `"Yes, confirmed."`, which the UI layer and this core must agree on
byte for byte. -/
def APPROVAL.YES : String := "Yes, confirmed."

/-- Modelled from the spec: the `NO` sentinel of the `APPROVAL` enumeration
from the missing module `src/shared.ts`. -/
def APPROVAL.NO : String := "No, denied."

/-- Execution state of a tool invocation: `call`, `partial-call` (here
`partCall`) or `result`. -/
inductive ToolState where
  | call
  | partCall
  | result
deriving DecidableEq, Repr

/-- Tool arguments, a validated structured record, modelled as a flat
key-value record of strings (the shipped tools only use flat string
fields such as `city`, `location`, `taskId`). -/
abbrev Args := List (String × String)

/-- Generic lookup in a string-keyed record, used for the execution
registry, the tool catalog and argument records. -/
def assoc {α : Type} : List (String × α) → String → Option α
  | [], _ => none
  | (n, a) :: rest, name => if n = name then some a else assoc rest name

/-- A tool invocation as it appears inside a message part. -/
structure ToolInvocation where
  toolCallId : String
  toolName : String
  args : Args
  state : ToolState
  result : Option String := none
deriving DecidableEq, Repr

/-- A message part: only the tool-invocation variant is relevant to the
core; every other variant passes through untouched. -/
inductive Part where
  | toolInvocation (toolInvocation : ToolInvocation)
  | other (kind : String) (payload : String)
deriving DecidableEq, Repr

/-- Role of a message author. -/
inductive Role where
  | user
  | assistant
  | system
deriving DecidableEq, Repr

/-- A conversation message.  The `parts` field is optional, mirroring
messages that carry no `parts` field at all. -/
structure Message where
  id : String
  role : Role
  content : String
  createdAt : Nat
  parts : Option (List Part) := none
deriving DecidableEq, Repr

/-- The context handed to an executor: the conversation prefix under the
key `messages`, and the `toolCallId` of the invocation being resolved. -/
structure ExecutionContext where
  messages : List Message
  toolCallId : String
deriving DecidableEq, Repr

/-- An asynchronous executor `(args, context) -> result`, modelled as a
function into `Except`: `Except.error` stands for a thrown or rejected
promise, `Except.ok` for normal completion. -/
abbrev Executor := Args → ExecutionContext → Except String String

/-- The execution registry: tool name to executor, for confirmation-gated
tools only. -/
abbrev Registry := List (String × Executor)

/-- An update event pushed to the output channel, of shape
`{toolCallId, toolName, result}`. -/
structure UpdateEvent where
  toolCallId : String
  toolName : String
  result : String
deriving DecidableEq, Repr

/-- An operation on the output channel.  The channel interface offers
`write` and `close`; the transformer is supposed to use only `write`. -/
inductive ChanOp where
  | write (event : UpdateEvent)
  | close
deriving DecidableEq, Repr

/-- A record of one executor invocation performed by the transformer,
kept so that theorems can count and inspect executor calls. -/
structure ExecCall where
  toolName : String
  args : Args
  ctx : ExecutionContext
deriving DecidableEq, Repr

/-- Modelled from the spec: the fixed denial-error value the missing
`processToolCalls` assigns on `APPROVAL.NO`; the test suite pins the
exact string. -/
def denialResult : String := "Error: User denied access to tool execution"

/-- Modelled from the spec: the deterministic error value assigned when an
executor throws or rejects. -/
def executionErrorResult : String := "Error: tool execution failed"

/-- Outcome of an awaited executor invocation: the returned value on
success, the deterministic error value on a thrown or rejected promise. -/
def execOutcome : Except String String → String
  | Except.ok v => v
  | Except.error _ => executionErrorResult

/-- The terminal form of a resolved invocation: state `result` and the
terminal value in the `result` field. -/
def resolveInvocation (inv : ToolInvocation) (value : String) : ToolInvocation :=
  { inv with state := ToolState.result, result := some value }

/-- Modelled from the spec: the per-part step of the missing
`processToolCalls` (`src/utils.ts`).  Anything that is not a
tool-invocation part in state `result` with a sentinel result is skipped.
On `APPROVAL.YES` with a registered executor, the executor is invoked with
`(args, context)` and the invocation becomes terminal with the outcome;
on `APPROVAL.NO` the invocation becomes terminal with the fixed
denial-error value; each resolution emits one `write` on the channel.
An approved invocation with no registered executor passes through
unresolved (the pass-through policy for the configuration gap the spec
leaves open).  Returns the processed part, the channel operations and the
executor calls performed. -/
def processPart (reg : Registry) (pre : List Message) :
    Part → Part × List ChanOp × List ExecCall
  | Part.toolInvocation inv =>
    if inv.state = ToolState.result then
      match inv.result with
      | some r =>
        if r = APPROVAL.YES then
          match assoc reg inv.toolName with
          | some f =>
            let ctx : ExecutionContext := ⟨pre, inv.toolCallId⟩
            let v : String := execOutcome (f inv.args ctx)
            (Part.toolInvocation (resolveInvocation inv v),
             [ChanOp.write ⟨inv.toolCallId, inv.toolName, v⟩],
             [⟨inv.toolName, inv.args, ctx⟩])
          | none => (Part.toolInvocation inv, [], [])
        else if r = APPROVAL.NO then
          (Part.toolInvocation (resolveInvocation inv denialResult),
           [ChanOp.write ⟨inv.toolCallId, inv.toolName, denialResult⟩],
           [])
        else (Part.toolInvocation inv, [], [])
      | none => (Part.toolInvocation inv, [], [])
    else (Part.toolInvocation inv, [], [])
  | p => (p, [], [])

/-- Modelled from the spec: processing of the parts of one message, in
original part order, concatenating channel operations and executor calls
in that order. -/
def processParts (reg : Registry) (pre : List Message) :
    List Part → List Part × List ChanOp × List ExecCall
  | [] => ([], [], [])
  | p :: rest =>
    let step := processPart reg pre p
    let tail := processParts reg pre rest
    (step.1 :: tail.1, step.2.1 ++ tail.2.1, step.2.2 ++ tail.2.2)

/-- Modelled from the spec: processing of one message of the missing
`processToolCalls`.  A message with no `parts` field is returned
unchanged; otherwise its parts are processed in order. -/
def processMessage (reg : Registry) (pre : List Message) (m : Message) :
    Message × List ChanOp × List ExecCall :=
  match m.parts with
  | none => (m, [], [])
  | some ps =>
    let step := processParts reg pre ps
    ({ m with parts := some step.1 }, step.2.1, step.2.2)

/-- Modelled from the spec: the message loop of the missing
`processToolCalls`, carrying the conversation prefix (the messages before
the current one, as given in the input) for the execution context. -/
def processMessages (reg : Registry) (pre : List Message) :
    List Message → List Message × List ChanOp × List ExecCall
  | [] => ([], [], [])
  | m :: rest =>
    let step := processMessage reg pre m
    let tail := processMessages reg (pre ++ [m]) rest
    (step.1 :: tail.1, step.2.1 ++ tail.2.1, step.2.2 ++ tail.2.2)

/-- Modelled from the spec: the conversation transformer
`processToolCalls` of the missing `src/utils.ts`.  Given the execution
registry and the conversation, it returns the transformed conversation,
the channel operations in emission order, and the executor calls
performed. -/
def processToolCalls (reg : Registry) (msgs : List Message) :
    List Message × List ChanOp × List ExecCall :=
  processMessages reg [] msgs

/-- The tool-call ids of the tool-invocation parts of a part list, in
order. -/
def partToolCallIds : List Part → List String
  | [] => []
  | Part.toolInvocation inv :: rest => inv.toolCallId :: partToolCallIds rest
  | Part.other _ _ :: rest => partToolCallIds rest

/-- The tool-call ids carried by one message. -/
def messageToolCallIds (m : Message) : List String :=
  match m.parts with
  | none => []
  | some ps => partToolCallIds ps

/-- The tool-call ids of a conversation in scan order. -/
def conversationToolCallIds : List Message → List String
  | [] => []
  | m :: rest => messageToolCallIds m ++ conversationToolCallIds rest

/-- The events carried by the `write` operations of a channel trace, in
order. -/
def writtenEvents : List ChanOp → List UpdateEvent
  | [] => []
  | ChanOp.write e :: rest => e :: writtenEvents rest
  | ChanOp.close :: rest => writtenEvents rest

/-- Whether a channel operation is a `write`. -/
def ChanOp.isWrite : ChanOp → Bool
  | ChanOp.write _ => true
  | ChanOp.close => false

/-- Whether a part is a tool invocation. -/
def Part.isToolInvocation : Part → Bool
  | Part.toolInvocation _ => true
  | Part.other _ _ => false

/-- Whether a message carries at least one tool-invocation part. -/
def messageHasToolPart (m : Message) : Bool :=
  match m.parts with
  | none => false
  | some ps => ps.any Part.isToolInvocation

/-- Whether a part is either not a tool invocation or a tool invocation
still in `call` or `partial-call` state. -/
def partStateUnresolved : Part → Bool
  | Part.toolInvocation inv =>
    decide (inv.state = ToolState.call) || decide (inv.state = ToolState.partCall)
  | Part.other _ _ => true

/-- Whether every tool-invocation part of a message is still in `call` or
`partial-call` state. -/
def messageAllUnresolved (m : Message) : Bool :=
  match m.parts with
  | none => true
  | some ps => ps.all partStateUnresolved

/-- Whether every tool-invocation part of a conversation is still in
`call` or `partial-call` state. -/
def conversationAllUnresolved (msgs : List Message) : Bool :=
  msgs.all messageAllUnresolved

/-- The update event one invocation is expected to produce: one event per
pending-resolution invocation that the transformer resolves, none for
anything else. -/
def invocationUpdate (reg : Registry) (pre : List Message)
    (inv : ToolInvocation) : Option UpdateEvent :=
  if inv.state = ToolState.result then
    match inv.result with
    | some r =>
      if r = APPROVAL.YES then
        match assoc reg inv.toolName with
        | some f =>
          some ⟨inv.toolCallId, inv.toolName,
                execOutcome (f inv.args ⟨pre, inv.toolCallId⟩)⟩
        | none => none
      else if r = APPROVAL.NO then
        some ⟨inv.toolCallId, inv.toolName, denialResult⟩
      else none
    | none => none
  else none

/-- The expected update events of a part list, in part order. -/
def partUpdates (reg : Registry) (pre : List Message) : List Part → List UpdateEvent
  | [] => []
  | Part.toolInvocation inv :: rest =>
    (invocationUpdate reg pre inv).toList ++ partUpdates reg pre rest
  | Part.other _ _ :: rest => partUpdates reg pre rest

/-- The expected update events of one message. -/
def messageUpdates (reg : Registry) (pre : List Message) (m : Message) :
    List UpdateEvent :=
  match m.parts with
  | none => []
  | some ps => partUpdates reg pre ps

/-- The expected update events of a conversation tail, in scan order
(message order, then part order), given the prefix already scanned. -/
def conversationUpdates (reg : Registry) (pre : List Message) :
    List Message → List UpdateEvent
  | [] => []
  | m :: rest =>
    messageUpdates reg pre m ++ conversationUpdates reg (pre ++ [m]) rest

/-- An executor that never returns a sentinel value as its result. -/
def executorNeverYieldsSentinel (f : Executor) : Prop :=
  ∀ a c v, f a c = Except.ok v → v ≠ APPROVAL.YES ∧ v ≠ APPROVAL.NO

/-- A registry all of whose executors never return a sentinel value. -/
def registryNeverYieldsSentinel (reg : Registry) : Prop :=
  ∀ name f, assoc reg name = some f → executorNeverYieldsSentinel f

/-- An auto-executing (inline) executor of a catalog entry. -/
abbrev AutoExecutor := Args → String

/-- A tool catalog entry: description, and an optional inline executor;
entries without one are confirmation-gated.  The argument schema is out of
scope (validation is assumed done upstream). -/
structure ToolDefinition where
  description : String
  execute : Option AutoExecutor := none

/-- The `when` discriminated union of the schedule-task input. -/
structure ScheduleWhen where
  type : String
  date : Option String := none
  delayInSeconds : Option Nat := none
  cron : Option String := none

/-- The validated input of the schedule-task tool. -/
structure ScheduleTaskInput where
  when : ScheduleWhen
  description : String

/-- Modelled from the spec: the `execute` function of the auto-executing
`scheduleTask` tool of the missing `src/tools.ts`, dispatching on
`when.type` with the three supported kinds and a catch-all that returns
the string the test suite pins, instead of throwing. -/
def scheduleTaskExecute (input : ScheduleTaskInput) : String :=
  if input.when.type = "scheduled" then
    "Task scheduled for type \"scheduled\" : " ++ input.description
  else if input.when.type = "delayed" then
    "Task scheduled for type \"delayed\" : " ++ input.description
  else if input.when.type = "cron" then
    "Task scheduled for type \"cron\" : " ++ input.description
  else
    "Not a valid schedule input"

/-- Decoding of the flat argument record into the schedule-task input. -/
def parseScheduleArgs (a : Args) : ScheduleTaskInput :=
  { when :=
      { type := (assoc a "when.type").getD ""
      , date := assoc a "when.date"
      , delayInSeconds := (assoc a "when.delayInSeconds").bind String.toNat?
      , cron := assoc a "when.cron" }
  , description := (assoc a "description").getD "" }

/-- Modelled from the spec: the confirmation-gated weather tool of the
missing `src/tools.ts` — description pinned by the test suite, and no
inline executor, so it can never auto-execute. -/
def getWeatherInformationTool : ToolDefinition :=
  { description := "show the weather in a given city to the user"
  , execute := none }

/-- Modelled from the spec: the auto-executing local-time tool;
the test suite pins its description and its result. -/
def getLocalTimeTool : ToolDefinition :=
  { description := "get the local time for a specified location"
  , execute := some (fun _ => "10am") }

/-- Modelled from the spec: the auto-executing schedule-task tool. -/
def scheduleTaskTool : ToolDefinition :=
  { description := "schedule a task to be executed at a later time"
  , execute := some (fun a => scheduleTaskExecute (parseScheduleArgs a)) }

/-- Modelled from the spec: the auto-executing list-scheduled-tasks tool;
the test suite pins its result when no tasks are scheduled. -/
def getScheduledTasksTool : ToolDefinition :=
  { description := "list all tasks that have been scheduled"
  , execute := some (fun _ => "No scheduled tasks found.") }

/-- Modelled from the spec: the auto-executing cancel-scheduled-task
tool; the test suite pins its result. -/
def cancelScheduledTaskTool : ToolDefinition :=
  { description := "cancel a scheduled task using its id"
  , execute := some (fun a =>
      "Task " ++ (assoc a "taskId").getD "" ++
      " has been successfully canceled.") }

/-- Modelled from the spec: the tool catalog `tools` of the missing
`src/tools.ts`, with the five shipped tools. -/
def tools : List (String × ToolDefinition) :=
  [("getWeatherInformation", getWeatherInformationTool),
   ("getLocalTime", getLocalTimeTool),
   ("scheduleTask", scheduleTaskTool),
   ("getScheduledTasks", getScheduledTasksTool),
   ("cancelScheduledTask", cancelScheduledTaskTool)]

/-- Modelled from the spec: the registered executor for the
confirmation-gated weather tool; the test suite pins its result. -/
def getWeatherInformationExecution : Executor :=
  fun a _ =>
    Except.ok ("The weather in " ++ (assoc a "city").getD "" ++ " is sunny")

/-- Modelled from the spec: the execution registry `executions` of the
missing `src/tools.ts`, holding exactly the executor of the
confirmation-gated weather tool. -/
def executions : Registry :=
  [("getWeatherInformation", getWeatherInformationExecution)]

/-- Fixture: the mock executor of the approve-path scenario, resolving to
the value the spec names. -/
def sunnyExecutor : Executor := fun _ _ => Except.ok "Sunny in Paris"

/-- Fixture: a registry carrying the mock weather executor. -/
def sunnyRegistry : Registry := [("getWeatherInformation", sunnyExecutor)]

/-- Fixture: an executor whose promise rejects. -/
def failingExecutor : Executor := fun _ _ => Except.error "network down"

/-- Fixture: a registry whose weather executor always fails. -/
def failingRegistry : Registry := [("getWeatherInformation", failingExecutor)]

/-- Fixture: an executor that returns the `APPROVAL.YES` sentinel itself as
its result value, legal for the registry interface. -/
def yesEchoExecutor : Executor := fun _ _ => Except.ok APPROVAL.YES

/-- Fixture: a registry carrying the sentinel-echoing executor. -/
def yesEchoRegistry : Registry := [("echoTool", yesEchoExecutor)]

/-- Fixture: the approved weather invocation of the approve-path scenario. -/
def parisInvocation : ToolInvocation :=
  { toolCallId := "call-1", toolName := "getWeatherInformation"
  , args := [("city", "Paris")], state := ToolState.result
  , result := some APPROVAL.YES }

/-- Fixture: the assistant message carrying the approved invocation. -/
def parisMessage : Message :=
  { id := "2", role := Role.assistant, content := "", createdAt := 0
  , parts := some [Part.toolInvocation parisInvocation] }

/-- Fixture: a plain user message with no parts field. -/
def helloMessage : Message :=
  { id := "1", role := Role.user, content := "Hello", createdAt := 0
  , parts := none }

/-- Fixture: the denied weather invocation of the deny-path scenario. -/
def londonInvocation : ToolInvocation :=
  { toolCallId := "call-1", toolName := "getWeatherInformation"
  , args := [("city", "London")], state := ToolState.result
  , result := some APPROVAL.NO }

/-- Fixture: a weather invocation still in `call` state. -/
def pendingInvocation : ToolInvocation :=
  { toolCallId := "call-1", toolName := "getWeatherInformation"
  , args := [("city", "London")], state := ToolState.call
  , result := none }

/-- Fixture: an already-terminal weather invocation. -/
def terminalInvocation : ToolInvocation :=
  { toolCallId := "call-1", toolName := "getWeatherInformation"
  , args := [("city", "London")], state := ToolState.result
  , result := some "The weather in London is sunny" }

/-- Fixture: the assistant message carrying the pending-state invocation. -/
def pendingMessage : Message :=
  { id := "1", role := Role.assistant, content := "", createdAt := 0
  , parts := some [Part.toolInvocation pendingInvocation] }

/-- Fixture: an invocation approved for the sentinel-echoing executor. -/
def echoInvocation : ToolInvocation :=
  { toolCallId := "call-1", toolName := "echoTool"
  , args := [], state := ToolState.result
  , result := some APPROVAL.YES }

/-- Fixture: the conversation of the non-idempotence counterexample. -/
def echoMessages : List Message :=
  [{ id := "1", role := Role.assistant, content := "", createdAt := 0
   , parts := some [Part.toolInvocation echoInvocation] }]

/-- Fixture: a schedule-task input whose `when.type` is not a supported
kind. -/
def noScheduleInput : ScheduleTaskInput :=
  { when := { type := "no-schedule" }, description := "Invalid task" }

lemma sentinel_no_ne_yes : APPROVAL.NO ≠ APPROVAL.YES := by decide

lemma denial_ne_yes : denialResult ≠ APPROVAL.YES := by decide

lemma denial_ne_no : denialResult ≠ APPROVAL.NO := by decide

lemma execError_ne_yes : executionErrorResult ≠ APPROVAL.YES := by decide

lemma execError_ne_no : executionErrorResult ≠ APPROVAL.NO := by decide

lemma invocationUpdate_not_result (reg : Registry) (pre : List Message)
    (inv : ToolInvocation) (h : inv.state ≠ ToolState.result) :
    invocationUpdate reg pre inv = none := by
  simp [invocationUpdate, h]

lemma invocationUpdate_no_result (reg : Registry) (pre : List Message)
    (inv : ToolInvocation) (h : inv.result = none) :
    invocationUpdate reg pre inv = none := by
  by_cases hst : inv.state = ToolState.result
  · simp [invocationUpdate, hst, h]
  · simp [invocationUpdate, hst]

lemma invocationUpdate_terminal (reg : Registry) (pre : List Message)
    (inv : ToolInvocation) (r : String) (hst : inv.state = ToolState.result)
    (hr : inv.result = some r) (hy : r ≠ APPROVAL.YES) (hn : r ≠ APPROVAL.NO) :
    invocationUpdate reg pre inv = none := by
  simp [invocationUpdate, hst, hr, hy, hn]

lemma invocationUpdate_yes_missing (reg : Registry) (pre : List Message)
    (inv : ToolInvocation) (hst : inv.state = ToolState.result)
    (hr : inv.result = some APPROVAL.YES)
    (hf : assoc reg inv.toolName = none) :
    invocationUpdate reg pre inv = none := by
  simp [invocationUpdate, hst, hr, hf]

lemma invocationUpdate_yes (reg : Registry) (pre : List Message)
    (inv : ToolInvocation) (f : Executor) (hst : inv.state = ToolState.result)
    (hr : inv.result = some APPROVAL.YES)
    (hf : assoc reg inv.toolName = some f) :
    invocationUpdate reg pre inv =
      some ⟨inv.toolCallId, inv.toolName,
            execOutcome (f inv.args ⟨pre, inv.toolCallId⟩)⟩ := by
  simp [invocationUpdate, hst, hr, hf]

lemma invocationUpdate_no (reg : Registry) (pre : List Message)
    (inv : ToolInvocation) (hst : inv.state = ToolState.result)
    (hr : inv.result = some APPROVAL.NO) :
    invocationUpdate reg pre inv =
      some ⟨inv.toolCallId, inv.toolName, denialResult⟩ := by
  simp [invocationUpdate, hst, hr, sentinel_no_ne_yes]

lemma invocationUpdate_ids (reg : Registry) (pre : List Message)
    (inv : ToolInvocation) (ev : UpdateEvent)
    (h : invocationUpdate reg pre inv = some ev) :
    ev.toolCallId = inv.toolCallId ∧ ev.toolName = inv.toolName := by
  by_cases hst : inv.state = ToolState.result
  · cases hr : inv.result with
    | none => rw [invocationUpdate_no_result reg pre inv hr] at h; cases h
    | some r =>
      by_cases hy : r = APPROVAL.YES
      · subst hy
        cases hf : assoc reg inv.toolName with
        | none => rw [invocationUpdate_yes_missing reg pre inv hst hr hf] at h; cases h
        | some f =>
          rw [invocationUpdate_yes reg pre inv f hst hr hf] at h
          cases h; exact ⟨rfl, rfl⟩
      · by_cases hn : r = APPROVAL.NO
        · subst hn
          rw [invocationUpdate_no reg pre inv hst hr] at h
          cases h; exact ⟨rfl, rfl⟩
        · rw [invocationUpdate_terminal reg pre inv r hst hr hy hn] at h; cases h
  · rw [invocationUpdate_not_result reg pre inv hst] at h; cases h

lemma processPart_other (reg : Registry) (pre : List Message)
    (kind payload : String) :
    processPart reg pre (Part.other kind payload) =
      (Part.other kind payload, [], []) := rfl

lemma processPart_eq (reg : Registry) (pre : List Message)
    (inv : ToolInvocation) :
    processPart reg pre (Part.toolInvocation inv) =
      match invocationUpdate reg pre inv with
      | none => (Part.toolInvocation inv, [], [])
      | some ev =>
        (Part.toolInvocation (resolveInvocation inv ev.result),
         [ChanOp.write ev],
         if inv.result = some APPROVAL.YES
         then [⟨inv.toolName, inv.args, ⟨pre, inv.toolCallId⟩⟩]
         else []) := by
  by_cases hst : inv.state = ToolState.result
  · cases hr : inv.result with
    | none => simp [processPart, invocationUpdate, hst, hr]
    | some r =>
      by_cases hy : r = APPROVAL.YES
      · subst hy
        cases hf : assoc reg inv.toolName with
        | none => simp [processPart, invocationUpdate, hst, hr, hf]
        | some f => simp [processPart, invocationUpdate, hst, hr, hf]
      · by_cases hn : r = APPROVAL.NO
        · subst hn
          simp [processPart, invocationUpdate, hst, hr, hy, sentinel_no_ne_yes]
        · simp [processPart, invocationUpdate, hst, hr, hy, hn]
  · simp [processPart, invocationUpdate, hst]

lemma processPart_skip (reg : Registry) (pre : List Message)
    (inv : ToolInvocation) (h : invocationUpdate reg pre inv = none) :
    processPart reg pre (Part.toolInvocation inv) =
      (Part.toolInvocation inv, [], []) := by
  rw [processPart_eq, h]

lemma processPart_approve (reg : Registry) (pre : List Message)
    (inv : ToolInvocation) (f : Executor) (hst : inv.state = ToolState.result)
    (hr : inv.result = some APPROVAL.YES)
    (hf : assoc reg inv.toolName = some f) :
    processPart reg pre (Part.toolInvocation inv) =
      (Part.toolInvocation
         (resolveInvocation inv (execOutcome (f inv.args ⟨pre, inv.toolCallId⟩))),
       [ChanOp.write ⟨inv.toolCallId, inv.toolName,
          execOutcome (f inv.args ⟨pre, inv.toolCallId⟩)⟩],
       [⟨inv.toolName, inv.args, ⟨pre, inv.toolCallId⟩⟩]) := by
  rw [processPart_eq, invocationUpdate_yes reg pre inv f hst hr hf]
  simp [hr]

lemma processPart_deny (reg : Registry) (pre : List Message)
    (inv : ToolInvocation) (hst : inv.state = ToolState.result)
    (hr : inv.result = some APPROVAL.NO) :
    processPart reg pre (Part.toolInvocation inv) =
      (Part.toolInvocation (resolveInvocation inv denialResult),
       [ChanOp.write ⟨inv.toolCallId, inv.toolName, denialResult⟩],
       []) := by
  rw [processPart_eq, invocationUpdate_no reg pre inv hst hr]
  simp [hr, sentinel_no_ne_yes]

lemma processParts_nil (reg : Registry) (pre : List Message) :
    processParts reg pre [] = ([], [], []) := rfl

lemma processParts_cons (reg : Registry) (pre : List Message)
    (p : Part) (rest : List Part) :
    processParts reg pre (p :: rest) =
      ((processPart reg pre p).1 :: (processParts reg pre rest).1,
       (processPart reg pre p).2.1 ++ (processParts reg pre rest).2.1,
       (processPart reg pre p).2.2 ++ (processParts reg pre rest).2.2) := rfl

lemma processParts_append (reg : Registry) (pre : List Message)
    (l r : List Part) :
    processParts reg pre (l ++ r) =
      ((processParts reg pre l).1 ++ (processParts reg pre r).1,
       (processParts reg pre l).2.1 ++ (processParts reg pre r).2.1,
       (processParts reg pre l).2.2 ++ (processParts reg pre r).2.2) := by
  induction l with
  | nil => simp [processParts_nil]
  | cons p t ih => simp [processParts_cons, ih]

lemma processMessages_nil (reg : Registry) (pre : List Message) :
    processMessages reg pre [] = ([], [], []) := rfl

lemma processMessages_cons (reg : Registry) (pre : List Message)
    (m : Message) (rest : List Message) :
    processMessages reg pre (m :: rest) =
      ((processMessage reg pre m).1 :: (processMessages reg (pre ++ [m]) rest).1,
       (processMessage reg pre m).2.1 ++ (processMessages reg (pre ++ [m]) rest).2.1,
       (processMessage reg pre m).2.2 ++ (processMessages reg (pre ++ [m]) rest).2.2) := rfl

lemma processMessages_append (reg : Registry) (l r : List Message) :
    ∀ pre, processMessages reg pre (l ++ r) =
      ((processMessages reg pre l).1 ++ (processMessages reg (pre ++ l) r).1,
       (processMessages reg pre l).2.1 ++ (processMessages reg (pre ++ l) r).2.1,
       (processMessages reg pre l).2.2 ++ (processMessages reg (pre ++ l) r).2.2) := by
  induction l with
  | nil => intro pre; simp [processMessages_nil]
  | cons m t ih =>
    intro pre
    rw [List.cons_append, processMessages_cons, processMessages_cons, ih (pre ++ [m])]
    simp

lemma processParts_length (reg : Registry) (pre : List Message)
    (ps : List Part) :
    (processParts reg pre ps).1.length = ps.length := by
  induction ps with
  | nil => rfl
  | cons p t ih => simp [processParts_cons, ih]

lemma processMessage_id (reg : Registry) (pre : List Message) (m : Message) :
    (processMessage reg pre m).1.id = m.id := by
  cases h : m.parts with
  | none => simp [processMessage, h]
  | some ps => simp [processMessage, h]

lemma processMessages_length (reg : Registry) (msgs : List Message) :
    ∀ pre, (processMessages reg pre msgs).1.length = msgs.length := by
  induction msgs with
  | nil => intro pre; rfl
  | cons m t ih => intro pre; simp [processMessages_cons, ih]

lemma processMessages_map_id (reg : Registry) (msgs : List Message) :
    ∀ pre, (processMessages reg pre msgs).1.map Message.id = msgs.map Message.id := by
  induction msgs with
  | nil => intro pre; rfl
  | cons m t ih =>
    intro pre
    simp [processMessages_cons, processMessage_id, ih]

lemma message_eta (m : Message) (ps : List Part) (h : m.parts = some ps) :
    { m with parts := some ps } = m := by
  cases m with
  | mk id role content createdAt parts =>
    simp at h
    simp [h]

lemma processParts_noTool (reg : Registry) (pre : List Message)
    (ps : List Part) (h : ps.any Part.isToolInvocation = false) :
    processParts reg pre ps = (ps, [], []) := by
  induction ps with
  | nil => rfl
  | cons p t ih =>
    simp [List.any_cons] at h
    obtain ⟨h1, h2⟩ := h
    cases p with
    | toolInvocation inv => simp [Part.isToolInvocation] at h1
    | other kind payload =>
      rw [processParts_cons, processPart_other,
          ih (by simp [List.any_eq_false] at h2 ⊢; exact h2)]
      rfl

lemma processMessage_noTool (reg : Registry) (pre : List Message)
    (m : Message) (h : messageHasToolPart m = false) :
    processMessage reg pre m = (m, [], []) := by
  cases hp : m.parts with
  | none => simp [processMessage, hp]
  | some ps =>
    have hps : ps.any Part.isToolInvocation = false := by
      rw [messageHasToolPart, hp] at h
      exact h
    simp [processMessage, hp, processParts_noTool reg pre ps hps,
          message_eta m ps hp]

lemma invocationUpdate_resolved_none (reg : Registry) (pre2 : List Message)
    (inv : ToolInvocation) (v : String) (hy : v ≠ APPROVAL.YES)
    (hn : v ≠ APPROVAL.NO) :
    invocationUpdate reg pre2 (resolveInvocation inv v) = none :=
  invocationUpdate_terminal reg pre2 (resolveInvocation inv v) v rfl rfl hy hn

lemma invocationUpdate_none_any_pre (reg : Registry)
    (pre pre2 : List Message) (inv : ToolInvocation)
    (h : invocationUpdate reg pre inv = none) :
    invocationUpdate reg pre2 inv = none := by
  by_cases hst : inv.state = ToolState.result
  · cases hr : inv.result with
    | none => exact invocationUpdate_no_result reg pre2 inv hr
    | some r =>
      by_cases hy : r = APPROVAL.YES
      · subst hy
        cases hf : assoc reg inv.toolName with
        | none => exact invocationUpdate_yes_missing reg pre2 inv hst hr hf
        | some f => rw [invocationUpdate_yes reg pre inv f hst hr hf] at h; cases h
      · by_cases hn : r = APPROVAL.NO
        · subst hn; rw [invocationUpdate_no reg pre inv hst hr] at h; cases h
        · exact invocationUpdate_terminal reg pre2 inv r hst hr hy hn
  · exact invocationUpdate_not_result reg pre2 inv hst

lemma invocationUpdate_some_nonsentinel (reg : Registry) (pre : List Message)
    (inv : ToolInvocation) (ev : UpdateEvent)
    (hreg : registryNeverYieldsSentinel reg)
    (h : invocationUpdate reg pre inv = some ev) :
    ev.result ≠ APPROVAL.YES ∧ ev.result ≠ APPROVAL.NO := by
  by_cases hst : inv.state = ToolState.result
  · cases hr : inv.result with
    | none => rw [invocationUpdate_no_result reg pre inv hr] at h; cases h
    | some r =>
      by_cases hy : r = APPROVAL.YES
      · subst hy
        cases hf : assoc reg inv.toolName with
        | none => rw [invocationUpdate_yes_missing reg pre inv hst hr hf] at h; cases h
        | some f =>
          rw [invocationUpdate_yes reg pre inv f hst hr hf] at h
          cases h
          cases hout : f inv.args ⟨pre, inv.toolCallId⟩ with
          | ok w =>
            have := hreg inv.toolName f hf inv.args ⟨pre, inv.toolCallId⟩ w hout
            simpa [execOutcome, hout] using this
          | error e =>
            simp [execOutcome, hout]
            exact ⟨execError_ne_yes, execError_ne_no⟩
      · by_cases hn : r = APPROVAL.NO
        · subst hn
          rw [invocationUpdate_no reg pre inv hst hr] at h
          cases h
          exact ⟨denial_ne_yes, denial_ne_no⟩
        · rw [invocationUpdate_terminal reg pre inv r hst hr hy hn] at h; cases h
  · rw [invocationUpdate_not_result reg pre inv hst] at h; cases h

lemma processPart_out_stable (reg : Registry)
    (hreg : registryNeverYieldsSentinel reg) (pre : List Message) (p : Part) :
    ∀ pre2, processPart reg pre2 (processPart reg pre p).1 =
      ((processPart reg pre p).1, [], []) := by
  intro pre2
  cases p with
  | other kind payload => rw [processPart_other, processPart_other]
  | toolInvocation inv =>
    rw [processPart_eq reg pre inv]
    cases hu : invocationUpdate reg pre inv with
    | none =>
      simp only []
      exact processPart_skip reg pre2 inv
        (invocationUpdate_none_any_pre reg pre pre2 inv hu)
    | some ev =>
      simp only []
      obtain ⟨hy, hn⟩ := invocationUpdate_some_nonsentinel reg pre inv ev hreg hu
      exact processPart_skip reg pre2 (resolveInvocation inv ev.result)
        (invocationUpdate_resolved_none reg pre2 inv ev.result hy hn)

lemma processParts_out_stable (reg : Registry)
    (hreg : registryNeverYieldsSentinel reg) (pre : List Message)
    (ps : List Part) :
    ∀ pre2, processParts reg pre2 (processParts reg pre ps).1 =
      ((processParts reg pre ps).1, [], []) := by
  induction ps with
  | nil => intro pre2; rfl
  | cons p t ih =>
    intro pre2
    rw [processParts_cons, processParts_cons,
        processPart_out_stable reg hreg pre p pre2, ih pre2]
    rfl

lemma processMessage_out_stable (reg : Registry)
    (hreg : registryNeverYieldsSentinel reg) (pre : List Message)
    (m : Message) :
    ∀ pre2, processMessage reg pre2 (processMessage reg pre m).1 =
      ((processMessage reg pre m).1, [], []) := by
  intro pre2
  cases hp : m.parts with
  | none => simp [processMessage, hp]
  | some ps =>
    simp only [processMessage, hp]
    rw [processParts_out_stable reg hreg pre ps pre2]

lemma processMessages_out_stable (reg : Registry)
    (hreg : registryNeverYieldsSentinel reg) (msgs : List Message) :
    ∀ pre pre2, processMessages reg pre2 (processMessages reg pre msgs).1 =
      ((processMessages reg pre msgs).1, [], []) := by
  induction msgs with
  | nil => intro pre pre2; rfl
  | cons m t ih =>
    intro pre pre2
    rw [processMessages_cons, processMessages_cons,
        processMessage_out_stable reg hreg pre m pre2,
        ih (pre ++ [m]) (pre2 ++ [(processMessage reg pre m).1])]
    rfl

lemma partToolCallIds_cons (p : Part) (t : List Part) :
    partToolCallIds (p :: t) = partToolCallIds [p] ++ partToolCallIds t := by
  cases p <;> rfl

lemma partToolCallIds_append (l r : List Part) :
    partToolCallIds (l ++ r) = partToolCallIds l ++ partToolCallIds r := by
  induction l with
  | nil => rfl
  | cons p t ih =>
    rw [List.cons_append, partToolCallIds_cons, partToolCallIds_cons p t, ih,
        List.append_assoc]

lemma conversationToolCallIds_append (l r : List Message) :
    conversationToolCallIds (l ++ r) =
      conversationToolCallIds l ++ conversationToolCallIds r := by
  induction l with
  | nil => rfl
  | cons m t ih =>
    rw [List.cons_append, conversationToolCallIds, conversationToolCallIds, ih,
        List.append_assoc]

lemma writtenEvents_append (a b : List ChanOp) :
    writtenEvents (a ++ b) = writtenEvents a ++ writtenEvents b := by
  induction a with
  | nil => rfl
  | cons op t ih => cases op <;> simp [writtenEvents, ih]

lemma processPart_call_mem (reg : Registry) (pre : List Message) (p : Part)
    (c : ExecCall) (h : c ∈ (processPart reg pre p).2.2) :
    c.ctx.toolCallId ∈ partToolCallIds [p] := by
  cases p with
  | other kind payload => rw [processPart_other] at h; cases h
  | toolInvocation inv =>
    rw [processPart_eq] at h
    cases hu : invocationUpdate reg pre inv with
    | none => rw [hu] at h; cases h
    | some ev =>
      rw [hu] at h
      simp only [partToolCallIds, List.mem_singleton]
      by_cases hy : inv.result = some APPROVAL.YES
      · simp [hy] at h
        rw [h]
      · simp [hy] at h

lemma processPart_event_mem (reg : Registry) (pre : List Message) (p : Part)
    (e : UpdateEvent) (h : e ∈ writtenEvents (processPart reg pre p).2.1) :
    e.toolCallId ∈ partToolCallIds [p] := by
  cases p with
  | other kind payload => rw [processPart_other] at h; cases h
  | toolInvocation inv =>
    rw [processPart_eq] at h
    cases hu : invocationUpdate reg pre inv with
    | none => rw [hu] at h; cases h
    | some ev =>
      rw [hu] at h
      simp only [writtenEvents] at h
      have he : e = ev := by simpa using h
      rw [he, (invocationUpdate_ids reg pre inv ev hu).1]
      simp [partToolCallIds]

lemma processParts_call_mem (reg : Registry) (pre : List Message)
    (ps : List Part) (c : ExecCall)
    (h : c ∈ (processParts reg pre ps).2.2) :
    c.ctx.toolCallId ∈ partToolCallIds ps := by
  induction ps with
  | nil => cases h
  | cons p t ih =>
    rw [processParts_cons] at h
    rw [partToolCallIds_cons, List.mem_append]
    rcases List.mem_append.mp h with h1 | h2
    · exact Or.inl (processPart_call_mem reg pre p c h1)
    · exact Or.inr (ih h2)

lemma processParts_event_mem (reg : Registry) (pre : List Message)
    (ps : List Part) (e : UpdateEvent)
    (h : e ∈ writtenEvents (processParts reg pre ps).2.1) :
    e.toolCallId ∈ partToolCallIds ps := by
  induction ps with
  | nil => cases h
  | cons p t ih =>
    rw [processParts_cons] at h
    simp only [writtenEvents_append, List.mem_append] at h
    rw [partToolCallIds_cons, List.mem_append]
    rcases h with h1 | h2
    · exact Or.inl (processPart_event_mem reg pre p e h1)
    · exact Or.inr (ih h2)

lemma processMessage_call_mem (reg : Registry) (pre : List Message)
    (m : Message) (c : ExecCall)
    (h : c ∈ (processMessage reg pre m).2.2) :
    c.ctx.toolCallId ∈ messageToolCallIds m := by
  cases hp : m.parts with
  | none => simp [processMessage, hp] at h
  | some ps =>
    simp only [processMessage, hp] at h
    rw [messageToolCallIds, hp]
    exact processParts_call_mem reg pre ps c h

lemma processMessage_event_mem (reg : Registry) (pre : List Message)
    (m : Message) (e : UpdateEvent)
    (h : e ∈ writtenEvents (processMessage reg pre m).2.1) :
    e.toolCallId ∈ messageToolCallIds m := by
  cases hp : m.parts with
  | none => simp [processMessage, hp, writtenEvents] at h
  | some ps =>
    simp only [processMessage, hp] at h
    rw [messageToolCallIds, hp]
    exact processParts_event_mem reg pre ps e h

lemma processMessages_call_mem (reg : Registry) (msgs : List Message)
    (c : ExecCall) :
    ∀ pre, c ∈ (processMessages reg pre msgs).2.2 →
      c.ctx.toolCallId ∈ conversationToolCallIds msgs := by
  induction msgs with
  | nil => intro pre h; cases h
  | cons m t ih =>
    intro pre h
    rw [processMessages_cons] at h
    rw [conversationToolCallIds, List.mem_append]
    rcases List.mem_append.mp h with h1 | h2
    · exact Or.inl (processMessage_call_mem reg pre m c h1)
    · exact Or.inr (ih (pre ++ [m]) h2)

lemma processMessages_event_mem (reg : Registry) (msgs : List Message)
    (e : UpdateEvent) :
    ∀ pre, e ∈ writtenEvents (processMessages reg pre msgs).2.1 →
      e.toolCallId ∈ conversationToolCallIds msgs := by
  induction msgs with
  | nil => intro pre h; cases h
  | cons m t ih =>
    intro pre h
    rw [processMessages_cons] at h
    simp only [writtenEvents_append, List.mem_append] at h
    rw [conversationToolCallIds, List.mem_append]
    rcases h with h1 | h2
    · exact Or.inl (processMessage_event_mem reg pre m e h1)
    · exact Or.inr (ih (pre ++ [m]) h2)

lemma partUpdates_cons (reg : Registry) (pre : List Message)
    (p : Part) (t : List Part) :
    partUpdates reg pre (p :: t) =
      partUpdates reg pre [p] ++ partUpdates reg pre t := by
  cases p <;> simp [partUpdates]

lemma processPart_updates (reg : Registry) (pre : List Message) (p : Part) :
    writtenEvents (processPart reg pre p).2.1 = partUpdates reg pre [p] := by
  cases p with
  | other kind payload => rfl
  | toolInvocation inv =>
    rw [processPart_eq]
    cases hu : invocationUpdate reg pre inv with
    | none => simp [writtenEvents, partUpdates, hu]
    | some ev => simp [writtenEvents, partUpdates, hu]

lemma processParts_updates (reg : Registry) (pre : List Message)
    (ps : List Part) :
    writtenEvents (processParts reg pre ps).2.1 = partUpdates reg pre ps := by
  induction ps with
  | nil => rfl
  | cons p t ih =>
    rw [processParts_cons]
    simp only [writtenEvents_append]
    rw [processPart_updates, ih, partUpdates_cons reg pre p t]

lemma processMessage_updates (reg : Registry) (pre : List Message)
    (m : Message) :
    writtenEvents (processMessage reg pre m).2.1 = messageUpdates reg pre m := by
  cases hp : m.parts with
  | none => simp [processMessage, messageUpdates, hp, writtenEvents]
  | some ps =>
    simp only [processMessage, messageUpdates, hp]
    exact processParts_updates reg pre ps

lemma processMessages_updates (reg : Registry) (msgs : List Message) :
    ∀ pre, writtenEvents (processMessages reg pre msgs).2.1 =
      conversationUpdates reg pre msgs := by
  induction msgs with
  | nil => intro pre; rfl
  | cons m t ih =>
    intro pre
    rw [processMessages_cons]
    simp only [writtenEvents_append]
    rw [processMessage_updates, ih (pre ++ [m]), conversationUpdates]

lemma processPart_writes (reg : Registry) (pre : List Message) (p : Part) :
    (processPart reg pre p).2.1.all ChanOp.isWrite = true := by
  cases p with
  | other kind payload => rfl
  | toolInvocation inv =>
    rw [processPart_eq]
    cases hu : invocationUpdate reg pre inv with
    | none => rfl
    | some ev => simp [ChanOp.isWrite]

lemma processParts_writes (reg : Registry) (pre : List Message)
    (ps : List Part) :
    (processParts reg pre ps).2.1.all ChanOp.isWrite = true := by
  induction ps with
  | nil => rfl
  | cons p t ih =>
    rw [processParts_cons]
    simp only [List.all_append]
    rw [processPart_writes, ih]
    rfl

lemma processMessage_writes (reg : Registry) (pre : List Message)
    (m : Message) :
    (processMessage reg pre m).2.1.all ChanOp.isWrite = true := by
  cases hp : m.parts with
  | none => simp [processMessage, hp]
  | some ps =>
    simp only [processMessage, hp]
    exact processParts_writes reg pre ps

lemma processMessages_writes (reg : Registry) (msgs : List Message) :
    ∀ pre, (processMessages reg pre msgs).2.1.all ChanOp.isWrite = true := by
  induction msgs with
  | nil => intro pre; rfl
  | cons m t ih =>
    intro pre
    rw [processMessages_cons]
    simp only [List.all_append]
    rw [processMessage_writes, ih (pre ++ [m])]
    rfl

lemma filter_beq_nil {α : Type} (idOf : α → String) (target : String)
    (xs : List α) (ids : List String)
    (hsub : ∀ x ∈ xs, idOf x ∈ ids) (hnot : target ∉ ids) :
    xs.filter (fun x => idOf x == target) = [] := by
  rw [List.filter_eq_nil_iff]
  intro x hx
  simp only [beq_iff_eq]
  intro heq
  exact hnot (heq ▸ hsub x hx)

lemma weather_result_ne_yes (s : String) :
    "The weather in " ++ s ++ " is sunny" ≠ APPROVAL.YES := by
  intro h
  have hlen := congrArg String.length h
  rw [String.length_append, String.length_append] at hlen
  have h1 : ("The weather in ").length = 15 := by decide
  have h2 : (" is sunny").length = 9 := by decide
  have h3 : (APPROVAL.YES).length = 15 := by decide
  omega

lemma weather_result_ne_no (s : String) :
    "The weather in " ++ s ++ " is sunny" ≠ APPROVAL.NO := by
  intro h
  have hlen := congrArg String.length h
  rw [String.length_append, String.length_append] at hlen
  have h1 : ("The weather in ").length = 15 := by decide
  have h2 : (" is sunny").length = 9 := by decide
  have h3 : (APPROVAL.NO).length = 11 := by decide
  omega

lemma executions_good : registryNeverYieldsSentinel executions := by
  intro name f hf a c v hv
  simp only [executions, assoc] at hf
  by_cases hn : "getWeatherInformation" = name
  · rw [if_pos hn] at hf
    cases hf
    simp only [getWeatherInformationExecution, Except.ok.injEq] at hv
    subst hv
    exact ⟨weather_result_ne_yes _, weather_result_ne_no _⟩
  · rw [if_neg hn] at hf
    cases hf

lemma sunnyRegistry_good : registryNeverYieldsSentinel sunnyRegistry := by
  intro name f hf a c v hv
  simp only [sunnyRegistry, assoc] at hf
  by_cases hn : "getWeatherInformation" = name
  · rw [if_pos hn] at hf
    cases hf
    simp only [sunnyExecutor, Except.ok.injEq] at hv
    subst hv
    constructor <;> decide
  · rw [if_neg hn] at hf
    cases hf

lemma processPart_unresolved (reg : Registry) (pre : List Message) (p : Part)
    (h : partStateUnresolved p = true) :
    processPart reg pre p = (p, [], []) := by
  cases p with
  | other kind payload => exact processPart_other reg pre kind payload
  | toolInvocation inv =>
    simp only [partStateUnresolved, Bool.or_eq_true, decide_eq_true_eq] at h
    have hne : inv.state ≠ ToolState.result := by
      rcases h with h | h <;> simp [h]
    exact processPart_skip reg pre inv (invocationUpdate_not_result reg pre inv hne)

lemma processParts_unresolved (reg : Registry) (pre : List Message)
    (ps : List Part) (h : ps.all partStateUnresolved = true) :
    processParts reg pre ps = (ps, [], []) := by
  induction ps with
  | nil => rfl
  | cons p t ih =>
    simp only [List.all_cons, Bool.and_eq_true] at h
    rw [processParts_cons, processPart_unresolved reg pre p h.1, ih h.2]
    rfl

lemma processMessage_unresolved (reg : Registry) (pre : List Message)
    (m : Message) (h : messageAllUnresolved m = true) :
    processMessage reg pre m = (m, [], []) := by
  cases hp : m.parts with
  | none => simp [processMessage, hp]
  | some ps =>
    rw [messageAllUnresolved, hp] at h
    simp only [processMessage, hp]
    rw [processParts_unresolved reg pre ps h]
    simp [message_eta m ps hp]

lemma processMessages_unresolved (reg : Registry) (msgs : List Message)
    (h : conversationAllUnresolved msgs = true) :
    ∀ pre, processMessages reg pre msgs = (msgs, [], []) := by
  induction msgs with
  | nil => intro pre; rfl
  | cons m t ih =>
    simp only [conversationAllUnresolved, List.all_cons, Bool.and_eq_true] at h
    intro pre
    rw [processMessages_cons, processMessage_unresolved reg pre m h.1,
        ih h.2 (pre ++ [m])]
    rfl

/-- C2: for every tool-invocation part with state `result` and result
`APPROVAL.NO`, the transformer invokes no executor (the executor-call
trace of the part is empty), sets the result to the fixed denial-error
value — the implementation string
"Error: User denied access to tool execution" — and emits exactly one
update event. -/
theorem claim2_deny_path (reg : Registry) (pre : List Message)
    (inv : ToolInvocation) (hst : inv.state = ToolState.result)
    (hres : inv.result = some APPROVAL.NO) :
    processPart reg pre (Part.toolInvocation inv) =
      (Part.toolInvocation (resolveInvocation inv denialResult),
       [ChanOp.write ⟨inv.toolCallId, inv.toolName, denialResult⟩],
       []) ∧
    denialResult = "Error: User denied access to tool execution" :=
  ⟨processPart_deny reg pre inv hst hres, rfl⟩

/-- C2 witness: the deny-path scenario with the London invocation. -/
theorem claim2_deny_path_witness :
    processPart executions [] (Part.toolInvocation londonInvocation) =
      (Part.toolInvocation (resolveInvocation londonInvocation denialResult),
       [ChanOp.write ⟨"call-1", "getWeatherInformation", denialResult⟩],
       []) ∧
    denialResult = "Error: User denied access to tool execution" :=
  claim2_deny_path executions [] londonInvocation rfl rfl

/-- C3: the transformer preserves the length of the conversation and the
message ids in order, and any message carrying no tool-invocation part —
including a message with no parts field — is returned unchanged with zero
events and zero executor calls. -/
theorem claim3_shape_preservation (reg : Registry) (msgs pre : List Message)
    (m : Message) (h : messageHasToolPart m = false) :
    (processToolCalls reg msgs).1.length = msgs.length ∧
    (processToolCalls reg msgs).1.map Message.id = msgs.map Message.id ∧
    processMessage reg pre m = (m, [], []) :=
  ⟨processMessages_length reg msgs [],
   processMessages_map_id reg msgs [],
   processMessage_noTool reg pre m h⟩

/-- C3 witness: the approve-path conversation, with the plain user message
that carries no parts field. -/
theorem claim3_shape_preservation_witness :
    (processToolCalls executions [helloMessage, parisMessage]).1.length =
      [helloMessage, parisMessage].length ∧
    (processToolCalls executions [helloMessage, parisMessage]).1.map Message.id =
      [helloMessage, parisMessage].map Message.id ∧
    processMessage executions [] helloMessage = (helloMessage, [], []) :=
  claim3_shape_preservation executions [helloMessage, parisMessage] []
    helloMessage (by decide)

/-- C5: if the executor of an approved invocation throws or rejects, the
transformer sets the result to the deterministic error value, emits
exactly one update event, performs exactly one executor call (no retry),
and the failure is contained: in any surrounding part list the other
parts are processed exactly as they are on their own and the whole pass
still returns a complete triple. -/
theorem claim5_executor_failure (reg : Registry) (pre : List Message)
    (inv : ToolInvocation) (f : Executor) (e : String) (l r : List Part)
    (hst : inv.state = ToolState.result)
    (hres : inv.result = some APPROVAL.YES)
    (hf : assoc reg inv.toolName = some f)
    (he : f inv.args ⟨pre, inv.toolCallId⟩ = Except.error e) :
    processPart reg pre (Part.toolInvocation inv) =
      (Part.toolInvocation (resolveInvocation inv executionErrorResult),
       [ChanOp.write ⟨inv.toolCallId, inv.toolName, executionErrorResult⟩],
       [⟨inv.toolName, inv.args, ⟨pre, inv.toolCallId⟩⟩]) ∧
    processParts reg pre (l ++ Part.toolInvocation inv :: r) =
      ((processParts reg pre l).1 ++
         Part.toolInvocation (resolveInvocation inv executionErrorResult) ::
         (processParts reg pre r).1,
       (processParts reg pre l).2.1 ++
         ChanOp.write ⟨inv.toolCallId, inv.toolName, executionErrorResult⟩ ::
         (processParts reg pre r).2.1,
       (processParts reg pre l).2.2 ++
         ExecCall.mk inv.toolName inv.args ⟨pre, inv.toolCallId⟩ ::
         (processParts reg pre r).2.2) := by
  have hvo : execOutcome (f inv.args ⟨pre, inv.toolCallId⟩) =
      executionErrorResult := by rw [he, execOutcome]
  have hp := processPart_approve reg pre inv f hst hres hf
  rw [hvo] at hp
  refine ⟨hp, ?_⟩
  rw [processParts_append, processParts_cons, hp]
  simp

/-- C5 witness: the failing weather executor on the approved Paris
invocation. -/
theorem claim5_executor_failure_witness :
    processPart failingRegistry [] (Part.toolInvocation parisInvocation) =
      (Part.toolInvocation (resolveInvocation parisInvocation executionErrorResult),
       [ChanOp.write ⟨"call-1", "getWeatherInformation", executionErrorResult⟩],
       [⟨"getWeatherInformation", [("city", "Paris")], ⟨[], "call-1"⟩⟩]) ∧
    processParts failingRegistry [] ([] ++ Part.toolInvocation parisInvocation :: []) =
      ((processParts failingRegistry [] []).1 ++
         Part.toolInvocation (resolveInvocation parisInvocation executionErrorResult) ::
         (processParts failingRegistry [] []).1,
       (processParts failingRegistry [] []).2.1 ++
         ChanOp.write ⟨"call-1", "getWeatherInformation", executionErrorResult⟩ ::
         (processParts failingRegistry [] []).2.1,
       (processParts failingRegistry [] []).2.2 ++
         ExecCall.mk "getWeatherInformation" [("city", "Paris")] ⟨[], "call-1"⟩ ::
         (processParts failingRegistry [] []).2.2) :=
  claim5_executor_failure failingRegistry [] parisInvocation failingExecutor
    "network down" [] [] rfl rfl rfl rfl

/-- C6: a tool-invocation with state `result` and a result that is neither
sentinel is terminal: any transformer pass (any registry, any prefix)
leaves the part unchanged, invokes no executor and emits no event for it,
and inside any containing part list everything else is processed exactly
as given. -/
theorem claim6_terminal_passthrough (reg : Registry) (pre : List Message)
    (inv : ToolInvocation) (r0 : String) (l rest : List Part)
    (hst : inv.state = ToolState.result) (hres : inv.result = some r0)
    (hy : r0 ≠ APPROVAL.YES) (hn : r0 ≠ APPROVAL.NO) :
    processPart reg pre (Part.toolInvocation inv) =
      (Part.toolInvocation inv, [], []) ∧
    processParts reg pre (l ++ Part.toolInvocation inv :: rest) =
      ((processParts reg pre l).1 ++ Part.toolInvocation inv ::
         (processParts reg pre rest).1,
       (processParts reg pre l).2.1 ++ (processParts reg pre rest).2.1,
       (processParts reg pre l).2.2 ++ (processParts reg pre rest).2.2) := by
  have hp := processPart_skip reg pre inv
    (invocationUpdate_terminal reg pre inv r0 hst hres hy hn)
  refine ⟨hp, ?_⟩
  rw [processParts_append, processParts_cons, hp]
  rfl

/-- C6 witness: an already-terminal weather invocation. -/
theorem claim6_terminal_passthrough_witness :
    processPart executions [] (Part.toolInvocation terminalInvocation) =
      (Part.toolInvocation terminalInvocation, [], []) ∧
    processParts executions [] ([] ++ Part.toolInvocation terminalInvocation :: []) =
      ((processParts executions [] []).1 ++ Part.toolInvocation terminalInvocation ::
         (processParts executions [] []).1,
       (processParts executions [] []).2.1 ++ (processParts executions [] []).2.1,
       (processParts executions [] []).2.2 ++ (processParts executions [] []).2.2) :=
  claim6_terminal_passthrough executions [] terminalInvocation
    "The weather in London is sunny" [] [] rfl rfl (by decide) (by decide)

/-- C7: a tool-invocation part in `call` or `partial-call` state passes
through unchanged with no executor call and no event; in any containing
part list the rest is processed exactly as given; and a conversation all
of whose tool-invocation parts are in pending state is returned unchanged
with zero events and zero executor calls. -/
theorem claim7_pending_passthrough (reg : Registry) (pre : List Message)
    (inv : ToolInvocation) (l rest : List Part) (msgs : List Message)
    (hst : inv.state = ToolState.call ∨ inv.state = ToolState.partCall)
    (hconv : conversationAllUnresolved msgs = true) :
    processPart reg pre (Part.toolInvocation inv) =
      (Part.toolInvocation inv, [], []) ∧
    processParts reg pre (l ++ Part.toolInvocation inv :: rest) =
      ((processParts reg pre l).1 ++ Part.toolInvocation inv ::
         (processParts reg pre rest).1,
       (processParts reg pre l).2.1 ++ (processParts reg pre rest).2.1,
       (processParts reg pre l).2.2 ++ (processParts reg pre rest).2.2) ∧
    processToolCalls reg msgs = (msgs, [], []) := by
  have hne : inv.state ≠ ToolState.result := by
    rcases hst with h | h <;> simp [h]
  have hp := processPart_skip reg pre inv
    (invocationUpdate_not_result reg pre inv hne)
  refine ⟨hp, ?_, processMessages_unresolved reg msgs hconv []⟩
  rw [processParts_append, processParts_cons, hp]
  rfl

/-- C7 witness: the pending-state weather invocation and the one-message
conversation carrying it. -/
theorem claim7_pending_passthrough_witness :
    processPart executions [] (Part.toolInvocation pendingInvocation) =
      (Part.toolInvocation pendingInvocation, [], []) ∧
    processParts executions [] ([] ++ Part.toolInvocation pendingInvocation :: []) =
      ((processParts executions [] []).1 ++ Part.toolInvocation pendingInvocation ::
         (processParts executions [] []).1,
       (processParts executions [] []).2.1 ++ (processParts executions [] []).2.1,
       (processParts executions [] []).2.2 ++ (processParts executions [] []).2.2) ∧
    processToolCalls executions [pendingMessage] = ([pendingMessage], [], []) :=
  claim7_pending_passthrough executions [] pendingInvocation [] []
    [pendingMessage] (Or.inl rfl) (by decide)

/-- C9: in the shipped tool catalog the confirmation-gated
`getWeatherInformation` entry has no inline execute function, while the
execution registry supplies exactly this tool with an executor function,
so the tool can only run through the approve path. -/
theorem claim9_catalog_registry_split :
    (assoc tools "getWeatherInformation").map ToolDefinition.execute =
      some none ∧
    (assoc executions "getWeatherInformation").isSome = true ∧
    executions.map Prod.fst = ["getWeatherInformation"] :=
  ⟨rfl, rfl, rfl⟩

/-- C10: the auto-executing schedule-task execute function is total over
the `when.type` discriminant: any input whose type is none of
`scheduled`, `delayed`, `cron` yields the string
"Not a valid schedule input" instead of an exception. -/
theorem claim10_schedule_total (input : ScheduleTaskInput)
    (h1 : input.when.type ≠ "scheduled") (h2 : input.when.type ≠ "delayed")
    (h3 : input.when.type ≠ "cron") :
    scheduleTaskExecute input = "Not a valid schedule input" := by
  simp [scheduleTaskExecute, h1, h2, h3]

/-- C10 witness: the `no-schedule` input of the test suite. -/
theorem claim10_schedule_total_witness :
    scheduleTaskExecute noScheduleInput = "Not a valid schedule input" :=
  claim10_schedule_total noScheduleInput (by decide) (by decide) (by decide)

/-- C4 counterexample: with a registry whose executor returns the
`APPROVAL.YES` sentinel itself, a second transformer pass over the first
pass output re-resolves the invocation — it emits an update event again
and calls the executor again — so the transformer is not idempotent for
every conversation and registry. -/
theorem claim4_idempotence_counterexample :
    (processToolCalls yesEchoRegistry
        (processToolCalls yesEchoRegistry echoMessages).1).2.1 ≠ [] ∧
    (processToolCalls yesEchoRegistry
        (processToolCalls yesEchoRegistry echoMessages).1).2.1 =
      [ChanOp.write ⟨"call-1", "echoTool", APPROVAL.YES⟩] ∧
    (processToolCalls yesEchoRegistry
        (processToolCalls yesEchoRegistry echoMessages).1).2.2 =
      [⟨"echoTool", [], ⟨[], "call-1"⟩⟩] := by
  refine ⟨?_, ?_, ?_⟩ <;> decide

/-- C4 (amended): provided no registered executor ever returns a sentinel
value as its result, the transformer is idempotent: re-running it on its
own output returns that output unchanged, emits zero events and performs
zero executor calls; the shipped execution registry satisfies this
condition. -/
theorem claim4_idempotent (reg : Registry) (msgs : List Message)
    (hreg : registryNeverYieldsSentinel reg) :
    processToolCalls reg (processToolCalls reg msgs).1 =
      ((processToolCalls reg msgs).1, [], []) ∧
    registryNeverYieldsSentinel executions :=
  ⟨processMessages_out_stable reg hreg msgs [] [], executions_good⟩

/-- C4 witness: the approve-path conversation under the mock registry. -/
theorem claim4_idempotent_witness :
    processToolCalls sunnyRegistry
        (processToolCalls sunnyRegistry [helloMessage, parisMessage]).1 =
      ((processToolCalls sunnyRegistry [helloMessage, parisMessage]).1, [], []) ∧
    registryNeverYieldsSentinel executions :=
  claim4_idempotent sunnyRegistry [helloMessage, parisMessage] sunnyRegistry_good

/-- C8: every channel operation the transformer performs is a `write`
(never `close`), each carrying an update event of shape
`{toolCallId, toolName, result}`, and the written events are exactly the
expected per-invocation updates in the original scan order: message
order, then part order. -/
theorem claim8_channel_writes_in_scan_order (reg : Registry)
    (msgs : List Message) :
    (processToolCalls reg msgs).2.1.all ChanOp.isWrite = true ∧
    writtenEvents (processToolCalls reg msgs).2.1 =
      conversationUpdates reg [] msgs :=
  ⟨processMessages_writes reg msgs [], processMessages_updates reg msgs []⟩

/-- C1: in a conversation with pairwise-distinct tool-call ids, for an
approved invocation (state `result`, result `APPROVAL.YES`) whose tool
name has a registered executor, the transformer invokes that executor
exactly once — with the arguments and a context made of the conversation
prefix under `messages` and the `toolCallId` — sets the invocation result
to the value the executor returned, and emits exactly one update event
carrying that payload. -/
theorem claim1_approve_path
    (reg : Registry) (pre post : List Message) (m : Message)
    (l r : List Part) (inv : ToolInvocation) (f : Executor) (v : String)
    (hm : m.parts = some (l ++ Part.toolInvocation inv :: r))
    (hst : inv.state = ToolState.result)
    (hres : inv.result = some APPROVAL.YES)
    (hf : assoc reg inv.toolName = some f)
    (hv : f inv.args ⟨pre, inv.toolCallId⟩ = Except.ok v)
    (huniq : (conversationToolCallIds (pre ++ m :: post)).Nodup) :
    (processToolCalls reg (pre ++ m :: post)).2.2.filter
        (fun c => c.ctx.toolCallId == inv.toolCallId) =
      [⟨inv.toolName, inv.args, ⟨pre, inv.toolCallId⟩⟩] ∧
    (writtenEvents (processToolCalls reg (pre ++ m :: post)).2.1).filter
        (fun e => e.toolCallId == inv.toolCallId) =
      [⟨inv.toolCallId, inv.toolName, v⟩] ∧
    (processToolCalls reg (pre ++ m :: post)).1 =
      (processMessages reg [] pre).1 ++
        { m with parts := some ((processParts reg pre l).1 ++
            Part.toolInvocation (resolveInvocation inv v) ::
            (processParts reg pre r).1) } ::
        (processMessages reg (pre ++ [m]) post).1 := by
  have hvo : execOutcome (f inv.args ⟨pre, inv.toolCallId⟩) = v := by
    rw [hv, execOutcome]
  have hp := processPart_approve reg pre inv f hst hres hf
  rw [hvo] at hp
  have hP : processParts reg pre (l ++ Part.toolInvocation inv :: r) =
      ((processParts reg pre l).1 ++
         Part.toolInvocation (resolveInvocation inv v) ::
         (processParts reg pre r).1,
       (processParts reg pre l).2.1 ++
         ChanOp.write ⟨inv.toolCallId, inv.toolName, v⟩ ::
         (processParts reg pre r).2.1,
       (processParts reg pre l).2.2 ++
         ExecCall.mk inv.toolName inv.args ⟨pre, inv.toolCallId⟩ ::
         (processParts reg pre r).2.2) := by
    rw [processParts_append, processParts_cons, hp]
    simp
  have hM : processMessage reg pre m =
      ({ m with parts := some ((processParts reg pre l).1 ++
           Part.toolInvocation (resolveInvocation inv v) ::
           (processParts reg pre r).1) },
       (processParts reg pre l).2.1 ++
         ChanOp.write ⟨inv.toolCallId, inv.toolName, v⟩ ::
         (processParts reg pre r).2.1,
       (processParts reg pre l).2.2 ++
         ExecCall.mk inv.toolName inv.args ⟨pre, inv.toolCallId⟩ ::
         (processParts reg pre r).2.2) := by
    simp only [processMessage, hm]
    rw [hP]
  have hT : processToolCalls reg (pre ++ m :: post) =
      ((processMessages reg [] pre).1 ++ ((processMessage reg pre m).1 ::
         (processMessages reg (pre ++ [m]) post).1),
       (processMessages reg [] pre).2.1 ++ ((processMessage reg pre m).2.1 ++
         (processMessages reg (pre ++ [m]) post).2.1),
       (processMessages reg [] pre).2.2 ++ ((processMessage reg pre m).2.2 ++
         (processMessages reg (pre ++ [m]) post).2.2)) := by
    show processMessages reg [] (pre ++ m :: post) = _
    rw [processMessages_append reg pre (m :: post) []]
    simp only [List.nil_append]
    rw [processMessages_cons]
  have hidsEq : conversationToolCallIds (pre ++ m :: post) =
      conversationToolCallIds pre ++
        ((partToolCallIds l ++ inv.toolCallId :: partToolCallIds r) ++
         conversationToolCallIds post) := by
    rw [conversationToolCallIds_append]
    simp only [conversationToolCallIds, messageToolCallIds, hm,
               partToolCallIds_append, partToolCallIds]
  rw [hidsEq] at huniq
  rcases List.nodup_append.mp huniq with ⟨-, hrest, hdisjA⟩
  rcases List.nodup_append.mp hrest with ⟨hMid, -, hdisjMB⟩
  rcases List.nodup_append.mp hMid with ⟨-, hcons, hdisjL⟩
  have hmemM : inv.toolCallId ∈
      partToolCallIds l ++ inv.toolCallId :: partToolCallIds r :=
    List.mem_append.mpr (Or.inr (List.mem_cons_self _ _))
  have hnotA : inv.toolCallId ∉ conversationToolCallIds pre :=
    fun hin => hdisjA hin (List.mem_append.mpr (Or.inl hmemM))
  have hnotB : inv.toolCallId ∉ conversationToolCallIds post :=
    fun hin => hdisjMB hmemM hin
  have hnotL : inv.toolCallId ∉ partToolCallIds l :=
    fun hin => hdisjL hin (List.mem_cons_self _ _)
  have hnotR : inv.toolCallId ∉ partToolCallIds r :=
    (List.nodup_cons.mp hcons).1
  have hfA : ((processMessages reg [] pre).2.2).filter
      (fun c => c.ctx.toolCallId == inv.toolCallId) = [] :=
    filter_beq_nil (fun c => c.ctx.toolCallId) inv.toolCallId _
      (conversationToolCallIds pre)
      (fun c hc => processMessages_call_mem reg pre c [] hc) hnotA
  have hfB : ((processMessages reg (pre ++ [m]) post).2.2).filter
      (fun c => c.ctx.toolCallId == inv.toolCallId) = [] :=
    filter_beq_nil (fun c => c.ctx.toolCallId) inv.toolCallId _
      (conversationToolCallIds post)
      (fun c hc => processMessages_call_mem reg post c (pre ++ [m]) hc) hnotB
  have hfL : ((processParts reg pre l).2.2).filter
      (fun c => c.ctx.toolCallId == inv.toolCallId) = [] :=
    filter_beq_nil (fun c => c.ctx.toolCallId) inv.toolCallId _
      (partToolCallIds l)
      (fun c hc => processParts_call_mem reg pre l c hc) hnotL
  have hfR : ((processParts reg pre r).2.2).filter
      (fun c => c.ctx.toolCallId == inv.toolCallId) = [] :=
    filter_beq_nil (fun c => c.ctx.toolCallId) inv.toolCallId _
      (partToolCallIds r)
      (fun c hc => processParts_call_mem reg pre r c hc) hnotR
  have hfeA : (writtenEvents (processMessages reg [] pre).2.1).filter
      (fun e => e.toolCallId == inv.toolCallId) = [] :=
    filter_beq_nil (fun e => e.toolCallId) inv.toolCallId _
      (conversationToolCallIds pre)
      (fun e he => processMessages_event_mem reg pre e [] he) hnotA
  have hfeB : (writtenEvents (processMessages reg (pre ++ [m]) post).2.1).filter
      (fun e => e.toolCallId == inv.toolCallId) = [] :=
    filter_beq_nil (fun e => e.toolCallId) inv.toolCallId _
      (conversationToolCallIds post)
      (fun e he => processMessages_event_mem reg post e (pre ++ [m]) he) hnotB
  have hfeL : (writtenEvents (processParts reg pre l).2.1).filter
      (fun e => e.toolCallId == inv.toolCallId) = [] :=
    filter_beq_nil (fun e => e.toolCallId) inv.toolCallId _
      (partToolCallIds l)
      (fun e he => processParts_event_mem reg pre l e he) hnotL
  have hfeR : (writtenEvents (processParts reg pre r).2.1).filter
      (fun e => e.toolCallId == inv.toolCallId) = [] :=
    filter_beq_nil (fun e => e.toolCallId) inv.toolCallId _
      (partToolCallIds r)
      (fun e he => processParts_event_mem reg pre r e he) hnotR
  refine ⟨?_, ?_, ?_⟩
  · rw [hT, hM]
    simp only [List.filter_append, List.filter_cons]
    rw [hfA, hfB, hfL, hfR]
    simp
  · rw [hT, hM]
    simp only [writtenEvents_append, writtenEvents, List.filter_append,
               List.filter_cons]
    rw [hfeA, hfeB, hfeL, hfeR]
    simp
  · rw [hT, hM]

/-- C1 witness: the approve-path scenario — user message, approved Paris
weather invocation, mock executor returning the pinned value. -/
theorem claim1_approve_path_witness :
    (processToolCalls sunnyRegistry ([helloMessage] ++ parisMessage :: [])).2.2.filter
        (fun c => c.ctx.toolCallId == "call-1") =
      [⟨"getWeatherInformation", [("city", "Paris")], ⟨[helloMessage], "call-1"⟩⟩] ∧
    (writtenEvents
        (processToolCalls sunnyRegistry ([helloMessage] ++ parisMessage :: [])).2.1).filter
        (fun e => e.toolCallId == "call-1") =
      [⟨"call-1", "getWeatherInformation", "Sunny in Paris"⟩] ∧
    (processToolCalls sunnyRegistry ([helloMessage] ++ parisMessage :: [])).1 =
      (processMessages sunnyRegistry [] [helloMessage]).1 ++
        { parisMessage with parts := some ((processParts sunnyRegistry [helloMessage] []).1 ++
            Part.toolInvocation (resolveInvocation parisInvocation "Sunny in Paris") ::
            (processParts sunnyRegistry [helloMessage] []).1) } ::
        (processMessages sunnyRegistry ([helloMessage] ++ [parisMessage]) []).1 :=
  claim1_approve_path sunnyRegistry [helloMessage] [] parisMessage [] []
    parisInvocation sunnyExecutor "Sunny in Paris" rfl rfl rfl rfl rfl (by decide)

end ChatAgent
